import Mathlib

/-!
# A shallow embedding of the typed-function compiler core

This file models the JavaScript sources of the typed-function repository
(`src/typed.js`, `src/param.js`, `src/signature.js`, `src/node.js`,
`src/utils.js`) in Lean 4 and proves properties of the model.

Modelling conventions, used throughout:

* JavaScript strings are modelled as `List Char` (`Str`); `S` turns a Lean
  string literal into that representation.  `jsSplitOn`, `jsTrim` and
  `jsJoin` model `String.prototype.split` (single-character separator),
  `String.prototype.trim` and `Array.prototype.join`.
* JavaScript numbers returned by comparators are modelled as `Option Int`,
  `none` standing for `NaN` (which arises in `Param.compare` when a first
  type is not present in the registry, `undefined - i`).
* Conversion objects carry an `id` field modelling JavaScript object
  identity (`indexOf`, `===`); within one pipeline run distinct conversion
  objects get distinct ids.
* Functions (implementations bound to signatures) are modelled by `Nat`
  identifiers; object identity of functions is id equality.
* Mutation is modelled by explicit state passing; `Param.clone` is the
  identity on the persistent representation.
* Thrown exceptions are modelled with `Except Str`.
-/

/-- JavaScript strings, modelled as lists of UTF-16-ish characters. -/
abbrev Str := List Char

/-- Shorthand turning a Lean string literal into the `Str` model. -/
def S (s : String) : Str := s.toList

/-- Character class used by `String.prototype.trim`. -/
def isWs (c : Char) : Bool := c.isWhitespace

/-- Model of `s.trim()`: drop whitespace from both ends. -/
def jsTrim (s : Str) : Str :=
  ((s.dropWhile isWs).reverse.dropWhile isWs).reverse

/-- Prepending a character onto the first piece of a split result (the
non-separator case of `jsSplitOn`). -/
def splitCons (c : Char) : List Str → List Str
  | [] => [[c]]
  | p :: ps => (c :: p) :: ps

/-- Model of `s.split(sep)` for a one-character separator: JavaScript
semantics, so `jsSplitOn c [] = [[]]` (like `''.split(',') === ['']`). -/
def jsSplitOn (sep : Char) : Str → List Str
  | [] => [[]]
  | c :: rest =>
    if c = sep then [] :: jsSplitOn sep rest
    else splitCons c (jsSplitOn sep rest)

/-- Model of `arr.join(sep)` for an array of strings. -/
def jsJoin (sep : Str) : List Str → Str
  | [] => []
  | [x] => x
  | x :: y :: rest => x ++ sep ++ jsJoin sep (y :: rest)

/-- Decimal rendering of a number appearing inside a message string
(JavaScript number-to-string coercion for the naturals used here). -/
def natStr (n : Nat) : Str := (Nat.repr n).toList

/-- Model of `arr.splice(t, 1)`: remove the element at index `t`
(a no-op beyond the end of the array). -/
def jsSplice (l : List α) (t : Nat) : List α :=
  l.take t ++ l.drop (t + 1)

/-- Model of inserting an element at position `n` of an array
(appending when `n` is at or beyond the end). -/
def jsInsertAt (n : Nat) (v : α) : List α → List α
  | [] => [v]
  | x :: xs =>
    match n with
    | 0 => v :: x :: xs
    | m + 1 => x :: jsInsertAt m v xs

/-- A registered conversion `{from, to, convert}` (`typed.conversions`
entry).  `convert` functions are never inspected by the compiler logic
modelled here, so a conversion is represented by its `from`/`to` names
plus an `id` modelling JavaScript object identity. -/
structure Conv where
  src : Str
  dst : Str
  id : Nat
deriving DecidableEq, Repr

/-- Model of `a[j] = v` on a possibly-too-short array of conversions:
positions that have never been assigned hold `undefined` (`none`). -/
def jsSetAtO (l : List (Option Conv)) (j : Nat) (c : Conv) : List (Option Conv) :=
  if j < l.length then l.set j (some c)
  else l ++ List.replicate (j - l.length) none ++ [some c]

/-- A function parameter (`Param` in `src/param.js`): an ordered list of
accepted type names and a parallel (possibly shorter, possibly sparse)
list of conversions, plus the variable-arguments flag.  The stored
`anyType` field of the source is always the value computed from `types`
at construction, so it is modelled as the derived `Param.anyType`. -/
structure Param where
  types : List Str
  conversions : List (Option Conv)
  varArgs : Bool
deriving DecidableEq, Repr

/-- `this.anyType = this.types.indexOf('any') !== -1`. -/
def Param.anyType (p : Param) : Bool := p.types.contains (S "any")

/-- `Param.prototype.hasConversions`: `this.conversions.length > 0`
(note: `true` even when every entry of the array is `undefined`). -/
def Param.hasConversions (p : Param) : Bool := p.conversions.length > 0

/-- `param.conversions[t]` with JavaScript out-of-bounds semantics. -/
def Param.convAt (p : Param) (t : Nat) : Option Conv :=
  p.conversions.getD t none

/-- `Param.prototype.overlapping`: the two parameters share a type name. -/
def Param.overlapping (a b : Param) : Bool :=
  a.types.any (fun t => b.types.contains t)

/-- `Param.prototype.matches`: true when either side is any-typed or the
types overlap. -/
def Param.matches (a b : Param) : Bool :=
  a.anyType || b.anyType || a.overlapping b

/-- `Param.prototype.contains`: the parameter mentions one of the given
type names (the source passes the set as an object used as a map). -/
def Param.containsAnyOf (p : Param) (set : List Str) : Bool :=
  p.types.any (fun t => set.contains t)

/-- The `Param` constructor applied to a string such as `"number | boolean"`
or `"...number"`: trim, strip a leading `...`, split on `|`, trim each
alternative; the empty remainder yields `["any"]`. -/
def paramOfString (s : Str) : Param :=
  if (jsTrim s).take 3 = S "..." then
    if (jsTrim s).drop 3 = [] then ⟨[S "any"], [], true⟩
    else ⟨(jsSplitOn '|' ((jsTrim s).drop 3)).map jsTrim, [], true⟩
  else
    if jsTrim s = [] then ⟨[S "any"], [], false⟩
    else ⟨(jsSplitOn '|' (jsTrim s)).map jsTrim, [], false⟩

/-- The loop of `Param.prototype.toString`: push each type unless it was
seen already (the `keys` object of the source). -/
def dedupFirstGo (seen : List Str) : List Str → List Str
  | [] => []
  | t :: rest =>
    if seen.contains t then dedupFirstGo seen rest
    else t :: dedupFirstGo (t :: seen) rest

/-- First-occurrence deduplication of a list of type names, as performed by
the `keys` object inside `Param.prototype.toString`. -/
def dedupFirst (l : List Str) : List Str := dedupFirstGo [] l

/-- `Param.prototype.toString()` (with `toConversion` left undefined):
`"..."` prefix for variadic parameters, then the deduplicated type names
joined by `|`. -/
def Param.toStr (p : Param) : Str :=
  (if p.varArgs then S "..." else []) ++ jsJoin (S "|") (dedupFirst p.types)

/-- The first defined entry of a conversions array (the loops computing
`ac` and `bc` in `Param.compare`). -/
def firstSome : List (Option Conv) → Option Conv
  | [] => none
  | some c :: _ => some c
  | none :: rest => firstSome rest

/-- `typed.conversions.indexOf(c)`: `-1` when the value (or `undefined`)
is not an element of the list. -/
def convIndexOf (convs : List Conv) : Option Conv → Int
  | none => -1
  | some c =>
    match convs.findIdx? (fun d => d = c) with
    | some i => (i : Int)
    | none => -1

/-- Position of the entry named `t` in the type registry, the loops
computing `ai`/`bi` in `Param.compare`; `none` models the `undefined`
left behind when the name is not registered. -/
def regIndexOf (reg : List Str) (t : Option Str) : Option Nat :=
  match t with
  | none => none
  | some name => reg.findIdx? (fun n => n = name)

/-- `Param.compare(a, b, typed)` from `src/param.js`.  The result is a
JavaScript number: `none` models `NaN` (which the source produces as
`undefined - i` when a first type is absent from the registry).  `reg`
is the list of registered type names in registry order and `convs` the
ambient conversion list. -/
def Param.compare (reg : List Str) (convs : List Conv) (a b : Param) : Option Int :=
  if a.anyType then some 1
  else if b.anyType then some (-1)
  else if a.types.contains (S "Object") then some 1
  else if b.types.contains (S "Object") then some (-1)
  else if a.hasConversions then
    if b.hasConversions then
      some (convIndexOf convs (firstSome a.conversions) -
            convIndexOf convs (firstSome b.conversions))
    else some 1
  else if b.hasConversions then some (-1)
  else
    match regIndexOf reg a.types.head?, regIndexOf reg b.types.head? with
    | some ai, some bi => some ((ai : Int) - (bi : Int))
    | _, _ => none

/-- A function signature (`Signature` in `src/signature.js`): the parameter
list plus the implementation, the latter modelled by a `Nat` identity.
The stored `anyType`/`varArgs` fields of the source are the values the
constructor computes from `params`, modelled by the derived functions
below. -/
structure Signature where
  params : List Param
  fn : Nat
deriving DecidableEq, Repr

/-- `this.anyType`: some parameter is any-typed. -/
def Signature.anyType (s : Signature) : Bool := s.params.any Param.anyType

/-- `this.varArgs`: the last parameter is variadic. -/
def Signature.varArgs (s : Signature) : Bool :=
  match s.params.getLast? with
  | some p => p.varArgs
  | none => false

/-- The `Signature` constructor applied to a raw text such as
`"number, string"`: empty text gives no parameters, otherwise the comma
split is parsed parameter-wise; a variadic parameter anywhere but last is
a `SyntaxError`. -/
def signatureOfString (txt : Str) (fn : Nat) : Except Str Signature :=
  let parts := if txt = [] then [] else jsSplitOn ',' txt
  let params := parts.map paramOfString
  if params.dropLast.any Param.varArgs then
    Except.error (S "SyntaxError: Unexpected variable arguments operator \"...\"")
  else Except.ok ⟨params, fn⟩

/-- `Signature.prototype.toString()`: parameters joined by `', '`.  Used as
the deduplication key in `parseSignatures`. -/
def Signature.keyStr (s : Signature) : Str :=
  jsJoin (S ", ") (s.params.map Param.toStr)

/-- `Signature.prototype.hasConversions()`. -/
def Signature.hasConversions (s : Signature) : Bool :=
  s.params.any Param.hasConversions

/-- `Signature.prototype.ignore()`: some parameter mentions an ignored
type name. -/
def Signature.ignoreB (s : Signature) (ign : List Str) : Bool :=
  s.params.any (fun p => p.containsAnyOf ign)

/-- `Signature.prototype.paramsStartWith(params)` from `src/signature.js`:
whether this signature could match the given path prefix, treating a
trailing variadic parameter as repeatable.  When `this.params` is empty
and the path is not, the source would throw reading `.varArgs` of
`undefined`; that situation is unreachable from the call site (the `anys`
passed in always have at least one parameter) and is modelled as
`false`. -/
def Signature.paramsStartWith (s : Signature) (path : List Param) : Bool :=
  if path = [] then true
  else
    match s.params.getLast?, path.getLast? with
    | some aLast, some bLast =>
      (List.range path.length).all fun i =>
        let a := (s.params.get? i).orElse fun _ =>
          if aLast.varArgs then some aLast else none
        let b := (path.get? i).orElse fun _ =>
          if bLast.varArgs then some bLast else none
        match a, b with
        | some a', some b' => a'.matches b'
        | _, _ => false
    | _, _ => false

/-- The clone taken at the start of the variadic branch of
`Signature.prototype.expand` (`param.clone()`); in the persistent model a
clone is the value itself. -/
def Param.clone (p : Param) : Param := p

/-- The variadic branch of `Signature.prototype.expand`: clone the
parameter and, for every registered conversion whose `from` is not among
the original types but whose `to` is, append the `from` type and record
the conversion at the matching index (`newParam.types[j] = conversion.from;
newParam.conversions[j] = conversion` with `j = newParam.types.length`). -/
def extendVarParam (convs : List Conv) (p : Param) : Param :=
  convs.foldl
    (fun q c =>
      if ¬ p.types.contains c.src ∧ p.types.contains c.dst then
        { q with
          types := q.types ++ [c.src]
          conversions := jsSetAtO q.conversions q.types.length c }
      else q)
    p.clone

/-- A single-type conversion-carrying parameter produced by the
non-variadic branch of `expand` (`new Param(conversion.from)` followed by
`newParam.conversions[0] = conversion`). -/
def convParam (c : Conv) : Param :=
  { paramOfString c.src with conversions := [some c] }

/-- The branches `Signature.prototype.expand` explores for one parameter,
in source order: for a variadic parameter the single extended clone; for
a non-variadic parameter one branch per type (`new Param(param.types[i])`)
followed by one branch per applicable conversion. -/
def branchesOf (convs : List Conv) (p : Param) : List Param :=
  if p.varArgs then [extendVarParam convs p]
  else
    p.types.map paramOfString ++
      (convs.filter
        (fun c => ¬ p.types.contains c.src ∧ p.types.contains c.dst)).map convParam

/-- The recursion inside `Signature.prototype.expand`, accumulating the
path of already-expanded parameters.  At the end the source constructs
`new Signature(path, signature.fn)`, which clones each parameter; in the
model this is the record itself. -/
def expandGo (convs : List Conv) (fn : Nat) : List Param → List Param → List Signature
  | path, [] => [⟨path, fn⟩]
  | path, p :: rest =>
    ((branchesOf convs p).map fun b => expandGo convs fn (path ++ [b]) rest).flatten

/-- `Signature.prototype.expand()` under the ambient conversion list. -/
def Signature.expandM (convs : List Conv) (s : Signature) : List Signature :=
  expandGo convs s.fn [] s.params

/-- The per-parameter loop of `Signature.compare`: return the first
non-zero `Param.compare` result (`NaN` included: `NaN !== 0`), else 0. -/
def sigCompareLoop (reg : List Str) (convs : List Conv) :
    List Param → List Param → Option Int
  | a :: as', b :: bs' =>
    let r := Param.compare reg convs a b
    if r = some 0 then sigCompareLoop reg convs as' bs' else r
  | _, _ => some 0

/-- `Signature.compare(a, b, typed)` from `src/signature.js`: shorter
parameter lists first, then fewer parameters-with-conversions, then the
lexicographic `Param.compare`. -/
def Signature.compare (reg : List Str) (convs : List Conv) (a b : Signature) :
    Option Int :=
  if a.params.length > b.params.length then some 1
  else if a.params.length < b.params.length then some (-1)
  else
    let ac := (a.params.filter Param.hasConversions).length
    let bc := (b.params.filter Param.hasConversions).length
    if ac > bc then some 1
    else if ac < bc then some (-1)
    else sigCompareLoop reg convs a.params b.params

/-- Insertion step of a stable sort: `x` is placed after every element it
compares greater than. -/
def insertBy (gt : α → α → Bool) (x : α) : List α → List α
  | [] => [x]
  | y :: ys => if gt x y then y :: insertBy gt x ys else x :: y :: ys

/-- Stable sort modelling `Array.prototype.sort(comparator)` (stable per
ES2019; the inputs used in this file give the comparator no `NaN`
results and no inconsistent pairs). -/
def jsSortStable (gt : α → α → Bool) (l : List α) : List α :=
  l.foldr (insertBy gt) []

/-- `comparator(a, b) > 0` for an `Option Int`-valued comparator
(`NaN > 0` is false). -/
def cmpGt : Option Int → Bool
  | some k => k > 0
  | none => false

/-- `comparator(a, b) < 0` (`NaN < 0` is false). -/
def cmpLt : Option Int → Bool
  | some k => k < 0
  | none => false

/-- The collision handling inside `parseSignatures` (`src/typed.js`,
the `keys[key]` map): a fresh key is inserted; on a collision the new
signature replaces the stored one when `Signature.compare` is negative,
an exact zero is the hard error `Signature "..." is defined twice`, and
otherwise the new signature is silently dropped.  The map is an
insertion-ordered association list, as a JavaScript object with string
keys is. -/
def dedupStep (reg : List Str) (convs : List Conv)
    (keys : List (Str × Signature)) (s : Signature) :
    Except Str (List (Str × Signature)) :=
  match keys.lookup s.keyStr with
  | none => Except.ok (keys ++ [(s.keyStr, s)])
  | some existing =>
    if cmpLt (Signature.compare reg convs s existing) then
      Except.ok (keys.map fun kv => if kv.1 = s.keyStr then (s.keyStr, s) else kv)
    else if Signature.compare reg convs s existing = some 0 then
      Except.error (S "Signature \"" ++ s.keyStr ++ S "\" is defined twice")
    else Except.ok keys

/-- The first half of `parseSignatures`: build a `Signature` per raw
entry, drop ignored ones, expand, deduplicate by canonical key, then sort
the surviving signatures with `Signature.compare`.  `raw` is the
insertion-ordered mapping of signature texts to implementations. -/
def parseSignaturesSorted (reg : List Str) (convs : List Conv) (ign : List Str)
    (raw : List (Str × Nat)) : Except Str (List Signature) := do
  let keys ← raw.foldlM
    (fun ks entry => do
      let sig ← signatureOfString entry.1 entry.2
      if sig.ignoreB ign then pure ks
      else (sig.expandM convs).foldlM (dedupStep reg convs) ks)
    []
  pure (jsSortStable
    (fun a b => cmpGt (Signature.compare reg convs a b)) (keys.map (·.2)))

/-- The `while (t < param.types.length)` loop of the redundant-conversion
filter in `parseSignatures`, expressed on the suffix of the parallel
`types`/`conversions` arrays still to be visited: an entry is spliced out
of both arrays when its conversion slot is defined and `cond` holds of
its type, otherwise `t++` moves on.  Trailing conversion entries beyond
the length of `types` are never visited. -/
def pruneGo (cond : Str → Bool) :
    List Str → List (Option Conv) → List Str × List (Option Conv)
  | [], restC => ([], restC)
  | ty :: restT, [] =>
    (ty :: (pruneGo cond restT []).1, (pruneGo cond restT []).2)
  | ty :: restT, c :: cs =>
    if c.isSome ∧ cond ty then pruneGo cond restT cs
    else (ty :: (pruneGo cond restT cs).1, c :: (pruneGo cond restT cs).2)

/-- The inner `for (j …)` scan of the redundant-conversion filter: some
other signature (`other !== signature`, here `j ≠ i`) has a parameter at
position `index` whose types contain `ty` and whose `conversions[index]`
is undefined.  Note the source checks the conversion slot at the
*parameter index*, not at the position of `ty`, and does not require the
other parameter to be non-variadic. -/
def pruneCond (sigs : List Signature) (i index : Nat) (ty : Str) : Bool :=
  (List.range sigs.length).any fun j =>
    j ≠ i &&
      match sigs.get? j with
      | some other =>
        match other.params.get? index with
        | some p => p.types.contains ty && p.convAt index == none
        | none => false
      | none => false

/-- One iteration of the outer redundant-conversion loop: prune the
trailing parameter of the signature at position `i` when it is variadic,
scanning the other signatures in their current (partially pruned)
state. -/
def pruneSignatureAt (sigs : List Signature) (i : Nat) : List Signature :=
  match sigs.get? i with
  | none => sigs
  | some sig =>
    if sig.varArgs then
      match sig.params.getLast? with
      | none => sigs
      | some lastP =>
        let index := sig.params.length - 1
        let pruned := pruneGo (pruneCond sigs i index) lastP.types lastP.conversions
        let newLast : Param := ⟨pruned.1, pruned.2, lastP.varArgs⟩
        sigs.set i ⟨sig.params.dropLast ++ [newLast], sig.fn⟩
    else sigs

/-- The full redundant-conversion filter: iterate `pruneSignatureAt` over
all positions, threading the partially pruned list as the source's
in-place mutation does. -/
def pruneAll (sigs : List Signature) : List Signature :=
  (List.range sigs.length).foldl pruneSignatureAt sigs

/-- `parseSignatures(rawSignatures)` from `src/typed.js`: parse, expand,
deduplicate, sort, then filter redundant variadic conversions. -/
def parseSignaturesM (reg : List Str) (convs : List Conv) (ign : List Str)
    (raw : List (Str × Nat)) : Except Str (List Signature) :=
  (parseSignaturesSorted reg convs ign raw).map pruneAll

/-- `filterAnyTypeSignatures`. -/
def filterAnySigs (sigs : List Signature) : List Signature :=
  sigs.filter Signature.anyType

/-- The value the `path` field of a constructed `Node` actually receives:
`path || []` where the caller in `parseTree` passes the terminal
`Signature` (or `undefined`) in this position — see `nodeNew` below. -/
inductive NodePathField where
  | ofSignature (s : Signature)
  | emptyArray
deriving DecidableEq, Repr

/-- The value the `childs` field receives: `childs || []` where the caller
passes the boolean `fallThrough` in this position, so it is `true` or the
empty array. -/
inductive NodeChildsField where
  | boolTrue
  | emptyArray
deriving DecidableEq, Repr

/-- A constructed discrimination-tree node, with the field contents the
`Node` constructor of `src/node.js` actually produces for the call in
`parseTree` (see `nodeNew`).  `signature` receives the child-node array,
`param` is always `null`. -/
inductive NodeM where
  | mk (types : List Param) (path : NodePathField) (param : Option Param)
      (signature : List NodeM) (childs : NodeChildsField) (fallThrough : Bool)

/-- The `Node` construction as performed by `parseTree`
(`new Node(path, nodeSignature, childs, fallThrough)` in `src/typed.js`)
against the five-parameter constructor
`Node(types, path, signature, childs, fallThrough)` in `src/node.js`:

* `types` receives the traversed `path` array;
* `path` receives `nodeSignature` — when that is `undefined` the
  constructor line `this.param = path[path.length - 1] || null` throws a
  `TypeError` reading `length` of `undefined`; when it is a `Signature`,
  `this.path` is that object and `this.param` is
  `signature[undefined] || null`, i.e. `null`;
* `signature` receives the child array (an array is always truthy, so
  `this.signature = signature || null` keeps it);
* `childs` receives the boolean `fallThrough` (`this.childs = childs || []`);
* `fallThrough` receives `undefined` (`this.fallThrough = false`). -/
def nodeNew (pathArg : List Param) (sigArg : Option Signature)
    (childsArg : List NodeM) (ftArg : Bool) : Except Str NodeM :=
  match sigArg with
  | none =>
    Except.error (S "TypeError: Cannot read property 'length' of undefined")
  | some sig =>
    Except.ok (NodeM.mk pathArg (NodePathField.ofSignature sig) none childsArg
      (if ftArg then NodeChildsField.boolTrue else NodeChildsField.emptyArray)
      false)

/-- Grouping a signature into the entry list of `parseTree`: the signature
is pushed onto the first entry whose parameter overlaps, a variadic
existing entry being the hard `Conflicting types` error; otherwise a new
entry is appended. -/
def entryPush (s : Signature) (p : Param) :
    List (Param × List Signature) → Except Str (List (Param × List Signature))
  | [] => Except.ok [(p, [s])]
  | e :: rest =>
    if e.1.overlapping p then
      if e.1.varArgs then
        Except.error (S "Conflicting types \"" ++ e.1.toStr ++ S "\" and \"" ++
          p.toStr ++ S "\"")
      else Except.ok ((e.1, e.2 ++ [s]) :: rest)
    else (entryPush s p rest).map (e :: ·)

/-- `parseTree(signatures, path, anys)` from `src/typed.js`.  `fuel`
bounds the recursion depth purely to make the definition structural; the
source recursion adds one parameter to `path` per level and stops when no
signature has a parameter at the current index, so any `fuel` exceeding
the maximum arity of `sigs` is enough and the `fuel` error is
unreachable from `typedPipeline` with such fuel. -/
def parseTreeM (reg : List Str) (convs : List Conv) :
    Nat → List Signature → List Param → List Signature → Except Str NodeM
  | 0, _, _, _ => Except.error (S "out of fuel")
  | fuel + 1, sigs, path, anys => do
    let index := path.length
    let nodeSignature := sigs.find? fun s => s.params.length = index
    let withParam := sigs.filterMap fun s => (s.params.get? index).map (s, ·)
    let sorted := jsSortStable
      (fun a b => cmpGt (Param.compare reg convs a.2 b.2)) withParam
    let entries ← sorted.foldlM (fun es sp => entryPush sp.1 sp.2 es) []
    let matchingAnys := anys.filter fun s => s.paramsStartWith path
    let fallThrough := matchingAnys.any fun s => ¬ sigs.contains s
    let childs ← entries.mapM fun e =>
      parseTreeM reg convs fuel e.2 (path ++ [e.1]) matchingAnys
    nodeNew path nodeSignature childs fallThrough

/-- The tree-building part of `_typed` (`src/typed.js`): parse and expand
the raw signatures, fail on an empty result, filter the any-typed
signatures and build the discrimination tree.  Code emission is not
modelled; the pipeline already fails inside `parseTree` (see
`nodeNew`). -/
def typedPipeline (reg : List Str) (convs : List Conv) (ign : List Str)
    (fuel : Nat) (raw : List (Str × Nat)) : Except Str NodeM := do
  let sigs ← parseSignaturesM reg convs ign raw
  if sigs.length = 0 then Except.error (S "No signatures provided")
  else
    let anys := filterAnySigs sigs
    parseTreeM reg convs fuel sigs [] anys

/-- The universe of run-time values needed by the default type tests of
`src/typed.js`: one representative per behaviourally distinct class. -/
inductive JsValue where
  | num
  | str
  | bool
  | func
  | arr
  | date
  | regexp
  | plainObj
  | null
  | undef
deriving DecidableEq, Repr

/-- The JavaScript `typeof` operator on the modelled values (`typeof null`
is `"object"`). -/
def typeofJs : JsValue → Str
  | JsValue.num => S "number"
  | JsValue.str => S "string"
  | JsValue.bool => S "boolean"
  | JsValue.func => S "function"
  | JsValue.arr => S "object"
  | JsValue.date => S "object"
  | JsValue.regexp => S "object"
  | JsValue.plainObj => S "object"
  | JsValue.null => S "object"
  | JsValue.undef => S "undefined"

/-- A type registry entry `{name, test}`. -/
structure Entry where
  name : Str
  test : JsValue → Bool

/-- The default type registry of `src/typed.js` (the `types` array), in
source order, with each `test` translated literally. -/
def defaultTypes : List Entry :=
  [⟨S "number", fun x => typeofJs x == S "number"⟩,
   ⟨S "string", fun x => typeofJs x == S "string"⟩,
   ⟨S "boolean", fun x => typeofJs x == S "boolean"⟩,
   ⟨S "Function", fun x => typeofJs x == S "function"⟩,
   ⟨S "Array", fun x => x == JsValue.arr⟩,
   ⟨S "Date", fun x => x == JsValue.date⟩,
   ⟨S "RegExp", fun x => x == JsValue.regexp⟩,
   ⟨S "Object", fun x => typeofJs x == S "object"⟩,
   ⟨S "null", fun x => x == JsValue.null⟩,
   ⟨S "undefined", fun x => x == JsValue.undef⟩]

/-- The registry-order list of type names of the default registry, as
consumed by `Param.compare`. -/
def defaultReg : List Str := defaultTypes.map Entry.name

/-- The loop of `getTypeOf`: entries named `Object` are skipped but
remembered (each one overwriting `obj`), any other accepting entry
returns immediately; after the loop the remembered `Object` entry is
tried, and failing everything the literal `unknown` is returned. -/
def getTypeOfGo (x : JsValue) (obj : Option Entry) : List Entry → Str
  | [] =>
    match obj with
    | some e => if e.test x then e.name else S "unknown"
    | none => S "unknown"
  | e :: rest =>
    if e.name = S "Object" then getTypeOfGo x (some e) rest
    else if e.test x then e.name
    else getTypeOfGo x obj rest

/-- `getTypeOf(x)` from `src/typed.js` against a registry. -/
def getTypeOfM (types : List Entry) (x : JsValue) : Str :=
  getTypeOfGo x none types

/-- Modelled from the spec (§4.7), for comparison with `getTypeOfM`:
"return the name of the first entry whose `test` accepts the value,
except that the `Object` entry (if present) is deferred until all others
have been tried; if nothing matches, return the literal `unknown`." -/
def getTypeOfSpec (types : List Entry) (x : JsValue) : Str :=
  match ((types.filter fun e => e.name ≠ S "Object") ++
      types.filter fun e => e.name = S "Object").find? (fun e => e.test x) with
  | some e => e.name
  | none => S "unknown"

/-- The structured `err.data` attached by `createError`: `expected` is
`null` (`none`) exactly when the `expected` argument was falsy. -/
structure ErrData where
  fn : Str
  index : Nat
  actual : JsValue
  expected : Option (List Str)
deriving Repr

/-- An `ArgumentsError`: the human message plus the structured data. -/
structure JsError where
  message : Str
  data : ErrData
deriving Repr

/-- The `Too many arguments` message built by `createError`. -/
def tooManyMessage (fnName : Str) (index argCount : Nat) : Str :=
  S "Too many arguments in function " ++ fnName ++ S " (expected: " ++
    natStr index ++ S ", actual: " ++ natStr argCount ++ S ")"

/-- The `Unexpected type of argument` message built by `createError`. -/
def unexpectedTypeMessage (fnName : Str) (expected : List Str)
    (actualType : Str) (index : Nat) : Str :=
  S "Unexpected type of argument in function " ++ fnName ++ S " (expected: " ++
    jsJoin (S " or ") expected ++ S ", actual: " ++ actualType ++
    S ", index: " ++ natStr index ++ S ")"

/-- The `Too few arguments` message built by `createError`. -/
def tooFewMessage (fnName : Str) (expected : List Str) (index : Nat) : Str :=
  S "Too few arguments in function " ++ fnName ++ S " (expected: " ++
    jsJoin (S " or ") expected ++ S ", index: " ++ natStr index ++ S ")"

/-- `createError(fn, argCount, index, actual, expected)` from
`src/typed.js`.  `expected` is the optional comma-separated string; note
`expected ? expected.split(',') : null`, a *truthiness* test, so the
empty string behaves like an absent argument.  `fn || 'unnamed'` likewise
replaces the empty function name in the message (but not in `data.fn`). -/
def createErrorM (types : List Entry) (fn : Str) (argCount index : Nat)
    (actual : JsValue) (expected : Option Str) : JsError :=
  let actualType := getTypeOfM types actual
  let expectedSplit : Option (List Str) :=
    match expected with
    | some e => if e = [] then none else some (jsSplitOn ',' e)
    | none => none
  let fnName := if fn = [] then S "unnamed" else fn
  let anyType :=
    match expectedSplit with
    | some l => l.contains (S "any")
    | none => false
  let data : ErrData := ⟨fn, index, actual, expectedSplit⟩
  match expectedSplit with
  | some l =>
    if argCount > index && !anyType then
      ⟨unexpectedTypeMessage fnName l actualType index, data⟩
    else ⟨tooFewMessage fnName l index, data⟩
  | none => ⟨tooManyMessage fnName index argCount, data⟩

/-- A JavaScript value sitting in a field of the object handed to
`typed.addType`: a string, a function, or anything else. -/
inductive JsField where
  | str (s : Str)
  | func (f : JsValue → Bool)
  | other

/-- The argument of `typed.addType`: either a nullish/falsy value or an
object with `name` and `test` fields. -/
inductive AddTypeArg where
  | nullish
  | obj (name : JsField) (test : JsField)

/-- `typed.addType(type)` from `src/typed.js`: validate that the argument
is an object whose `name` is a string and whose `test` is a function,
then push it onto the registry.  No other check is performed. -/
def addTypeM (types : List Entry) (arg : AddTypeArg) : Except Str (List Entry) :=
  match arg with
  | AddTypeArg.obj (JsField.str n) (JsField.func f) =>
    Except.ok (types ++ [⟨n, f⟩])
  | _ =>
    Except.error
      (S "TypeError: Object with properties \x7bname: string, test: function\x7d expected")

/-- The signature argument of `typed.find`: a comma-separated string or
an array of type names. -/
inductive FindInput where
  | ofStr (s : Str)
  | ofArr (l : List Str)

/-- The lookup half of `typed.find`: join the normalized pieces with
`','` and look the key up in the dispatcher's attached map; a missing
key is the `Signature not found` error. -/
def findArr (fnName : Str) (sigMap : List (Str × Nat)) (arr : List Str) :
    Except Str Nat :=
  match sigMap.lookup (jsJoin (S ",") arr) with
  | some impl => Except.ok impl
  | none =>
    Except.error (S "TypeError: Signature not found (signature: " ++
      (if fnName = [] then S "unnamed" else fnName) ++ S "(" ++
      jsJoin (S ", ") arr ++ S "))")

/-- `typed.find(fn, signature)` from `src/typed.js`, with the dispatcher
represented by its attached `signatures` map (keys are the expanded
conversion-free signatures joined with `','`, values the implementations).
A string input is split on commas and each piece trimmed; an array input
is used as-is. -/
def findM (fnName : Str) (sigMap : List (Str × Nat)) (input : FindInput) :
    Except Str Nat :=
  match input with
  | FindInput.ofStr s => findArr fnName sigMap ((jsSplitOn ',' s).map jsTrim)
  | FindInput.ofArr l => findArr fnName sigMap l

/-- Modelled from the spec (§4.4 (d)), for comparison with `pruneCond`:
"some *other* signature has, at the same parameter index, a non-variadic
Param whose types include the conversion's `from` directly (no
conversion)" — i.e. `from` occurs at some position of that parameter's
types with no conversion attached *at that position*. -/
def specDropCond (sigs : List Signature) (i index : Nat) (ty : Str) : Bool :=
  (List.range sigs.length).any fun j =>
    j ≠ i &&
      match sigs.get? j with
      | some other =>
        match other.params.get? index with
        | some p =>
          !p.varArgs &&
            (List.range p.types.length).any fun k =>
              p.types.getD k [] == ty && p.convAt k == none
        | none => false
      | none => false

/-- The parallel `types`/`conversions` arrays of a parameter read as a
list of (type, attached conversion) pairs, positions beyond the end of
`conversions` reading as `undefined`. -/
def pairsOfL : List Str → List (Option Conv) → List (Str × Option Conv)
  | [], _ => []
  | ty :: ts, [] => (ty, none) :: pairsOfL ts []
  | ty :: ts, c :: cs => (ty, c) :: pairsOfL ts cs

/-- All ways of picking one branch per parameter, in depth-first source
order; used to state what `Signature.prototype.expand` produces. -/
def branchProd : List (List Param) → List (List Param)
  | [] => [[]]
  | bs :: rest => (bs.map fun b => (branchProd rest).map (b :: ·)).flatten

/-- A type name that the `Param` constructor parses back to itself: not
empty, already trimmed, no `|` alternative separator, no leading variadic
marker.  All registry names in practice are plain. -/
def PlainName (t : Str) : Prop :=
  t ≠ [] ∧ jsTrim t = t ∧ ¬ t.contains '|' ∧ t.take 3 ≠ S "..."

instance (t : Str) : Decidable (PlainName t) := by
  unfold PlainName; infer_instance

/-- Plainness of everything `expand` re-parses for a signature: the type
names of its parameters and the `from` names of the ambient
conversions. -/
def PlainSig (convs : List Conv) (s : Signature) : Prop :=
  (∀ p ∈ s.params, ∀ t ∈ p.types, PlainName t) ∧ ∀ c ∈ convs, PlainName c.src

instance (convs : List Conv) (s : Signature) : Decidable (PlainSig convs s) := by
  unfold PlainSig; infer_instance

/-- A parameter list with the variadic flag only in the last position, the
invariant the `Signature` constructor enforces. -/
def wfParams (ps : List Param) : Prop := ∀ p ∈ ps.dropLast, p.varArgs = false

instance (ps : List Param) : Decidable (wfParams ps) := by
  unfold wfParams; infer_instance

/-- `none`/`none` or `some x`/`some (-x)`: the two evaluation orders of a
JavaScript comparator are opposite numbers (or both `NaN`). -/
def OppositeCmp : Option Int → Option Int → Prop
  | some x, some y => y = -x
  | none, none => True
  | _, _ => False

/-- The raw mapping `{'number|string': f, 'number': f}` — the same
implementation (`0`) registered under two keys whose expansions collide
on the canonical key `number`. -/
def rawSameFn : List (Str × Nat) := [(S "number|string", 0), (S "number", 0)]

/-- The conversion `{from: 'boolean', to: 'number'}` used by the examples. -/
def convBN : Conv := ⟨S "boolean", S "number", 0⟩

/-- The raw mapping `{'string, ...number': f, 'string, number': g}` used to
probe the redundant-variadic-conversion filter. -/
def rawVar : List (Str × Nat) := [(S "string, ...number", 10), (S "string, number", 20)]

/-- The sorted signature list the pipeline produces for `rawVar` just
before the redundant-conversion filter runs. -/
def sortedVar : List Signature :=
  (parseSignaturesSorted defaultReg [convBN] [] rawVar).toOption.getD []

/-- `' t0 , t1 , … '`: the type names joined with `' , '` and padded with
spaces, the spaced form of a string signature accepted by `find`. -/
def spacedForm (ts : List Str) : Str :=
  S " " ++ jsJoin (S " , ") ts ++ S " "

/-- `'t0,t1,…'`: the type names joined with bare commas. -/
def plainForm (ts : List Str) : Str := jsJoin (S ",") ts

/-- The parameter `any` (`new Param('any')`). -/
def anyParam : Param := paramOfString (S "any")

/-- The parameter `Object` (`new Param('Object')`). -/
def objectParam : Param := paramOfString (S "Object")

/-- The test function of the duplicate entry used to probe `addType`. -/
def dupTest : JsValue → Bool := fun _ => true

/-- An `addType` argument whose name collides (exact, case-sensitive match)
with the default registry entry `number`. -/
def dupArg : AddTypeArg := AddTypeArg.obj (JsField.str (S "number")) (JsField.func dupTest)

/-- The default registry with the `Object` entry taken out, in order. -/
def defaultTypesSansObject : List Entry :=
  defaultTypes.filter fun e => e.name ≠ S "Object"

/-- The `Object` entry of the default registry. -/
def objectEntry : Entry := ⟨S "Object", fun x => typeofJs x == S "object"⟩

/-- At most one registry entry is named `Object` (the well-formedness the
spec's data model postulates for registries). -/
def atMostOneObject (types : List Entry) : Prop :=
  (types.filter fun e => e.name = S "Object").length ≤ 1

instance (types : List Entry) : Decidable (atMostOneObject types) := by
  unfold atMostOneObject; infer_instance

/-- A single-type `number` signature with the given implementation. -/
def sigNum (fn : Nat) : Signature := ⟨[⟨[S "number"], [], false⟩], fn⟩

/-- A one-entry deduplication map already holding key `number`. -/
def demoKeys : List (Str × Signature) := [(S "number", sigNum 1)]

/-- The signature `'number|string'` bound to implementation `7`. -/
def demoUnionSig : Signature := ⟨[paramOfString (S "number|string")], 7⟩

/-- The expanded variadic signature `string, ...number|boolean` (the
`boolean` alternative carrying `convBN`) that `parseSignaturesSorted`
produces for `rawVar` at position 1. -/
def sigVarA : Signature :=
  ⟨[⟨[S "string"], [], false⟩,
    ⟨[S "number", S "boolean"], [none, some convBN], true⟩], 10⟩

/-- What the redundant-conversion filter leaves of `sigVarA`: the
`boolean` conversion entry has been spliced out. -/
def sigVarAPruned : Signature :=
  ⟨[⟨[S "string"], [], false⟩, ⟨[S "number"], [none], true⟩], 10⟩

theorem overlapping_iff (a b : Param) :
    a.overlapping b = true ↔ ∃ t, t ∈ a.types ∧ t ∈ b.types := by
  simp [Param.overlapping, List.any_eq_true]

theorem overlapping_symm (a b : Param) : a.overlapping b = b.overlapping a := by
  rw [Bool.eq_iff_iff, overlapping_iff, overlapping_iff]
  exact ⟨fun ⟨t, h1, h2⟩ => ⟨t, h2, h1⟩, fun ⟨t, h1, h2⟩ => ⟨t, h2, h1⟩⟩

/-- C9.  `Param.prototype.matches` is true exactly when one side is
any-typed or the two parameters share a type name, and it is symmetric. -/
theorem claim_C9_matches (a b : Param) :
    (a.matches b = true ↔
      a.anyType = true ∨ b.anyType = true ∨ ∃ t, t ∈ a.types ∧ t ∈ b.types) ∧
    a.matches b = b.matches a := by
  constructor
  · simp [Param.matches, overlapping_iff, or_assoc]
  · simp only [Param.matches, overlapping_symm a b]
    cases a.anyType <;> cases b.anyType <;> simp

/-- C4 counterexample.  The claim says two any-typed parameters (or two
parameters containing `Object`) compare as a tie, returning 0; the
source's rule `if (a.anyType) return 1` fires before looking at `b`, so
both comparisons return 1. -/
theorem claim_C4_cex :
    Param.compare defaultReg [] anyParam anyParam = some 1 ∧
    Param.compare defaultReg [] objectParam objectParam = some 1 := by
  constructor <;> decide

/-- C4 amended.  Excluding the pairs where both parameters are any-typed,
or (neither any-typed and) both mention `Object` — on which both
evaluation orders return 1 — `Param.compare` answers opposite numbers in
the two orders, or `NaN` in both (the `NaN` arising when neither side has
conversions and a first type is unregistered). -/
theorem claim_C4_amended (reg : List Str) (convs : List Conv) (a b : Param)
    (h1 : ¬ (a.anyType = true ∧ b.anyType = true))
    (h2 : ¬ (a.anyType = false ∧ b.anyType = false ∧
      S "Object" ∈ a.types ∧ S "Object" ∈ b.types)) :
    OppositeCmp (Param.compare reg convs a b) (Param.compare reg convs b a) := by
  unfold Param.compare
  by_cases ha : a.anyType = true
  · have hb : b.anyType = false := by
      cases hbv : b.anyType
      · rfl
      · exact absurd ⟨ha, hbv⟩ h1
    simp [ha, hb, OppositeCmp]
  · have ha' : a.anyType = false := by cases hav : a.anyType <;> simp_all
    by_cases hb : b.anyType = true
    · simp [ha', hb, OppositeCmp]
    · have hb' : b.anyType = false := by cases hbv : b.anyType <;> simp_all
      by_cases hao : S "Object" ∈ a.types
      · have hbo : S "Object" ∉ b.types := fun hbv => h2 ⟨ha', hb', hao, hbv⟩
        simp [ha', hb', hao, hbo, OppositeCmp]
      · by_cases hbo : S "Object" ∈ b.types
        · simp [ha', hb', hao, hbo, OppositeCmp]
        · by_cases hac : a.hasConversions = true
          · by_cases hbc : b.hasConversions = true
            · simp [ha', hb', hao, hbo, hac, hbc, OppositeCmp]
            · have hbc' : b.hasConversions = false := by
                cases hbv : b.hasConversions <;> simp_all
              simp [ha', hb', hao, hbo, hac, hbc', OppositeCmp]
          · have hac' : a.hasConversions = false := by
              cases hav : a.hasConversions <;> simp_all
            by_cases hbc : b.hasConversions = true
            · simp [ha', hb', hao, hbo, hac', hbc, OppositeCmp]
            · have hbc' : b.hasConversions = false := by
                cases hbv : b.hasConversions <;> simp_all
              simp only [ha', hb', hao, hbo, hac', hbc']
              cases hra : regIndexOf reg a.types.head? <;>
                cases hrb : regIndexOf reg b.types.head? <;>
                  simp [OppositeCmp, hao, hbo]

/-- Witness for `claim_C4_amended` at the concrete pair
`number` / `string` under the default registry. -/
theorem claim_C4_amended_witness :
    OppositeCmp
      (Param.compare defaultReg [] (paramOfString (S "number")) (paramOfString (S "string")))
      (Param.compare defaultReg [] (paramOfString (S "string")) (paramOfString (S "number"))) :=
  claim_C4_amended defaultReg [] (paramOfString (S "number"))
    (paramOfString (S "string")) (by decide) (by decide)

/-- C8 counterexample.  The claim says `addType` raises an error on an
exact duplicate name; the source only validates the shape of the
argument, so registering a second `number` entry succeeds and leaves two
entries with that name. -/
theorem claim_C8_cex :
    addTypeM defaultTypes dupArg =
      Except.ok (defaultTypes ++ [(⟨S "number", dupTest⟩ : Entry)]) ∧
    ((defaultTypes ++ [(⟨S "number", dupTest⟩ : Entry)]).map Entry.name).count (S "number") = 2 := by
  constructor
  · rfl
  · decide

/-- C8 amended.  `typed.addType` checks only that its argument is an
object whose `name` is a string and whose `test` is a function: any such
argument — duplicate name or not — is appended to the registry, and any
other argument is the shape `TypeError`. -/
theorem claim_C8_amended :
    (∀ (types : List Entry) (name : Str) (test : JsValue → Bool),
      addTypeM types (AddTypeArg.obj (JsField.str name) (JsField.func test)) =
        Except.ok (types ++ [(⟨name, test⟩ : Entry)])) ∧
    (∀ types : List Entry,
      addTypeM types AddTypeArg.nullish =
        Except.error
          (S "TypeError: Object with properties \x7bname: string, test: function\x7d expected")) := by
  exact ⟨fun _ _ _ => rfl, fun _ => rfl⟩

theorem getTypeOfGo_noObject (x : JsValue) (obj : Option Entry) :
    ∀ entries : List Entry, (∀ e ∈ entries, e.name ≠ S "Object") →
      getTypeOfGo x obj entries =
        match entries.find? (fun e => e.test x) with
        | some e => e.name
        | none =>
          match obj with
          | some o => if o.test x then o.name else S "unknown"
          | none => S "unknown"
  | [], _ => rfl
  | e :: rest, h => by
    have he : e.name ≠ S "Object" := h e (List.mem_cons_self e rest)
    have hrest : ∀ e' ∈ rest, e'.name ≠ S "Object" :=
      fun e' h' => h e' (List.mem_cons_of_mem e h')
    unfold getTypeOfGo
    rw [if_neg he]
    by_cases ht : e.test x = true
    · simp [ht, List.find?]
    · have ht' : e.test x = false := by cases hv : e.test x <;> simp_all
      simp [ht', List.find?, getTypeOfGo_noObject x obj rest hrest]

theorem getTypeOfM_eq_spec :
    ∀ types : List Entry, atMostOneObject types →
      ∀ x : JsValue, getTypeOfM types x = getTypeOfSpec types x := by
  intro types
  induction types with
  | nil => intro _ _; rfl
  | cons e rest ih =>
    intro h x
    by_cases he : e.name = S "Object"
    · have hone := h
      unfold atMostOneObject at hone
      rw [List.filter_cons_of_pos (by simpa using he)] at hone
      simp only [List.length_cons] at hone
      have hfil : (rest.filter fun e' => decide (e'.name = S "Object")) = [] :=
        List.eq_nil_of_length_eq_zero (by omega)
      have hrest : ∀ e' ∈ rest, e'.name ≠ S "Object" := by
        intro e' h'
        have := List.filter_eq_nil_iff.mp hfil e' h'
        simpa using this
      unfold getTypeOfM getTypeOfGo
      rw [if_pos he]
      rw [getTypeOfGo_noObject x (some e) rest hrest]
      unfold getTypeOfSpec
      rw [List.filter_cons_of_neg (by simpa using he),
        List.filter_cons_of_pos (by simpa using he), hfil,
        List.filter_eq_self.mpr (fun e' h' => by simpa using hrest e' h')]
      rw [List.find?_append]
      cases hf : rest.find? (fun e' => e'.test x) with
      | some e' => simp
      | none =>
        simp only [Option.none_or]
        cases ht : e.test x <;> simp [List.find?, ht]
    · have h' : atMostOneObject rest := by
        unfold atMostOneObject at h ⊢
        rw [List.filter_cons_of_neg (by simpa using he)] at h
        exact h
      unfold getTypeOfM getTypeOfGo
      rw [if_neg he]
      unfold getTypeOfSpec
      rw [List.filter_cons_of_pos (by simpa using he),
        List.filter_cons_of_neg (by simpa using he)]
      cases ht : e.test x with
      | true => simp [List.find?, ht]
      | false =>
        simp only [List.cons_append, List.find?, ht]
        exact ih h' x

theorem jsInsertAt_of_le (v : α) :
    ∀ (l : List α) (n : Nat), l.length ≤ n → jsInsertAt n v l = l ++ [v] := by
  intro l
  induction l with
  | nil => intro n _; simp [jsInsertAt]
  | cons x xs ih =>
    intro n h
    cases n with
    | zero => simp at h
    | succ m => simp [jsInsertAt, ih m (by simpa using h)]

/-- C5.  `getTypeOf` returns the name of the first registry entry whose
test accepts the value, with the `Object` entry deferred behind all
others, and `unknown` when nothing matches (stated as equality with the
spec-side scan `getTypeOfSpec`, for registries with at most one `Object`
entry); moreover with the default registry an array is classified
`Array`, wherever the `Object` entry is inserted. -/
theorem claim_C5_getTypeOf :
    (∀ types : List Entry, atMostOneObject types → ∀ x : JsValue,
      getTypeOfM types x = getTypeOfSpec types x) ∧
    (∀ n : Nat,
      getTypeOfM (jsInsertAt n objectEntry defaultTypesSansObject) JsValue.arr =
        S "Array") := by
  refine ⟨fun types h x => getTypeOfM_eq_spec types h x, fun n => ?_⟩
  rcases Nat.lt_or_ge n 9 with h | h
  · interval_cases n <;> decide
  · rw [jsInsertAt_of_le objectEntry defaultTypesSansObject n
      (le_trans (by decide : defaultTypesSansObject.length ≤ 9) h)]
    decide

/-- Witness for `claim_C5_getTypeOf`: the default registry satisfies the
at-most-one-`Object` hypothesis, and classifying an array agrees with
the spec-side scan. -/
theorem claim_C5_getTypeOf_witness :
    getTypeOfM defaultTypes JsValue.arr = getTypeOfSpec defaultTypes JsValue.arr :=
  claim_C5_getTypeOf.1 defaultTypes (by decide) JsValue.arr

theorem unexpectedTypeMessage_head (fnName : Str) (expected : List Str)
    (actualType : Str) (index : Nat) :
    (unexpectedTypeMessage fnName expected actualType index).head? = some 'U' := by
  unfold unexpectedTypeMessage
  rw [show S "Unexpected type of argument in function " =
    'U' :: S "nexpected type of argument in function " from rfl]
  simp

/-- C7 counterexample.  Called with the *present but empty* expected
string — which the emitter produces when every child type carries a
conversion — and `argCount > index` with no `any` among the expected
types, the claim says the message is an `Unexpected type of argument`
message; the source's truthiness test `expected ? … : null` sends the
empty string down the `Too many arguments` branch instead. -/
theorem claim_C7_cex :
    (createErrorM defaultTypes (S "f") 2 1 JsValue.bool (some [])).message =
      tooManyMessage (S "f") 1 2 ∧
    ¬ ∃ (fnName : Str) (expected : List Str) (actualType : Str) (index : Nat),
      (createErrorM defaultTypes (S "f") 2 1 JsValue.bool (some [])).message =
        unexpectedTypeMessage fnName expected actualType index := by
  constructor
  · rfl
  · rintro ⟨fnName, expected, actualType, index, h⟩
    have h1 : (createErrorM defaultTypes (S "f") 2 1 JsValue.bool (some [])).message.head? =
      some 'T' := by decide
    rw [h, unexpectedTypeMessage_head] at h1
    simp at h1

/-- C7 amended.  `createError` produces the `Too many arguments` message
when `expected` is absent *or the empty string* (JavaScript truthiness),
the `Unexpected type of argument` message when `expected` is a non-empty
string, `argCount > index` and the comma-split list does not contain
`any`, and the `Too few arguments` message in the remaining
non-empty-`expected` cases; the structured data `{fn, index, actual,
expected}` is attached in every case, with `data.expected` null exactly
when `expected` was falsy. -/
theorem claim_C7_amended (types : List Entry) (fn : Str) (argCount index : Nat)
    (actual : JsValue) :
    (∀ expected : Option Str, expected = none ∨ expected = some [] →
      createErrorM types fn argCount index actual expected =
        ⟨tooManyMessage (if fn = [] then S "unnamed" else fn) index argCount,
         ⟨fn, index, actual, none⟩⟩) ∧
    (∀ e : Str, e ≠ [] → argCount > index →
      (jsSplitOn ',' e).contains (S "any") = false →
      createErrorM types fn argCount index actual (some e) =
        ⟨unexpectedTypeMessage (if fn = [] then S "unnamed" else fn)
           (jsSplitOn ',' e) (getTypeOfM types actual) index,
         ⟨fn, index, actual, some (jsSplitOn ',' e)⟩⟩) ∧
    (∀ e : Str, e ≠ [] →
      (argCount ≤ index ∨ (jsSplitOn ',' e).contains (S "any") = true) →
      createErrorM types fn argCount index actual (some e) =
        ⟨tooFewMessage (if fn = [] then S "unnamed" else fn) (jsSplitOn ',' e) index,
         ⟨fn, index, actual, some (jsSplitOn ',' e)⟩⟩) := by
  refine ⟨?_, ?_, ?_⟩
  · rintro expected (rfl | rfl) <;> simp [createErrorM]
  · intro e he hgt hany
    have hany' : S "any" ∉ jsSplitOn ',' e := by simpa using hany
    simp [createErrorM, he, hgt, hany']
  · intro e he hcase
    rcases hcase with hle | hany
    · simp [createErrorM, he, Nat.not_lt.mpr hle]
    · have hany' : S "any" ∈ jsSplitOn ',' e := by simpa using hany
      simp [createErrorM, he, hany']

/-- Witness for `claim_C7_amended` hitting the `Unexpected type` branch
at a concrete call. -/
theorem claim_C7_amended_witness :
    createErrorM defaultTypes (S "f") 2 1 JsValue.bool (some (S "number")) =
      ⟨unexpectedTypeMessage (if S "f" = ([] : Str) then S "unnamed" else S "f")
         (jsSplitOn ',' (S "number")) (getTypeOfM defaultTypes JsValue.bool) 1,
       ⟨S "f", 1, JsValue.bool, some (jsSplitOn ',' (S "number"))⟩⟩ :=
  (claim_C7_amended defaultTypes (S "f") 2 1 JsValue.bool).2.1 (S "number")
    (by decide) (by decide) (by decide)

/-- C1 counterexample.  `{'number|string': f, 'number': f}` binds the
*same* implementation (`0`) under both keys; their expansions collide on
the canonical key `number` and compare equal, and `parseSignatures`
raises `Signature "number" is defined twice` — the claim says a
same-identity collision is silently collapsed and never an error. -/
theorem claim_C1_cex :
    rawSameFn.map Prod.snd = [0, 0] ∧
    parseSignaturesM defaultReg [] [] rawSameFn =
      Except.error (S "Signature \"number\" is defined twice") := by
  constructor
  · rfl
  · rfl

/-- C1 amended.  The collision handling of `parseSignatures` never
consults the implementations: a colliding expanded signature replaces the
stored one exactly when `Signature.compare` is negative, is silently
dropped when the comparison is positive (or `NaN`), and the
`Signature defined twice` error is raised exactly when the comparison is
zero — whether or not the two implementations are the same function.
(`Signature.compare` and `Signature.keyStr` do not read `fn`, so
implementation identity cannot influence any branch.) -/
theorem claim_C1_amended (reg : List Str) (convs : List Conv)
    (keys : List (Str × Signature)) (s : Signature) :
    ((∃ e, dedupStep reg convs keys s = Except.error e) ↔
      ∃ ex, keys.lookup s.keyStr = some ex ∧
        Signature.compare reg convs s ex = some 0) ∧
    (keys.lookup s.keyStr = none →
      dedupStep reg convs keys s = Except.ok (keys ++ [(s.keyStr, s)])) ∧
    (∀ ex, keys.lookup s.keyStr = some ex →
      cmpLt (Signature.compare reg convs s ex) = true →
      dedupStep reg convs keys s =
        Except.ok (keys.map fun kv => if kv.1 = s.keyStr then (s.keyStr, s) else kv)) ∧
    (∀ ex, keys.lookup s.keyStr = some ex →
      cmpLt (Signature.compare reg convs s ex) = false →
      Signature.compare reg convs s ex ≠ some 0 →
      dedupStep reg convs keys s = Except.ok keys) := by
  refine ⟨?_, ?_, ?_, ?_⟩
  · constructor
    · rintro ⟨e, he⟩
      unfold dedupStep at he
      cases hl : keys.lookup s.keyStr with
      | none => rw [hl] at he; simp at he
      | some ex =>
        rw [hl] at he
        refine ⟨ex, rfl, ?_⟩
        by_cases hlt : cmpLt (Signature.compare reg convs s ex) = true
        · simp [hlt] at he
        · by_cases hz : Signature.compare reg convs s ex = some 0
          · exact hz
          · simp [hlt, hz] at he
    · rintro ⟨ex, hl, hz⟩
      refine ⟨S "Signature \"" ++ s.keyStr ++ S "\" is defined twice", ?_⟩
      unfold dedupStep
      rw [hl]
      simp [hz, cmpLt]
  · intro hl
    unfold dedupStep
    rw [hl]
  · intro ex hl hlt
    unfold dedupStep
    rw [hl]
    simp [hlt]
  · intro ex hl hlt hz
    unfold dedupStep
    rw [hl]
    simp [hlt, hz]

/-- Witness for `claim_C1_amended`: inserting a `number` signature with
implementation `0` into a map already holding a `number` signature with
the *different* implementation `1` raises the error, since the two
compare equal. -/
theorem claim_C1_amended_witness :
    ∃ e, dedupStep defaultReg [] demoKeys (sigNum 0) = Except.error e :=
  (claim_C1_amended defaultReg [] demoKeys (sigNum 0)).1.mpr
    ⟨sigNum 1, by decide, by decide⟩


theorem pruneGo_snd_nil (cond : Str → Bool) :
    ∀ ts : List Str, (pruneGo cond ts []).2 = []
  | [] => rfl
  | _ :: restT => pruneGo_snd_nil cond restT

theorem pruneGo_pairs (cond : Str → Bool) :
    ∀ (types : List Str) (convs : List (Option Conv)),
      pairsOfL (pruneGo cond types convs).1 (pruneGo cond types convs).2 =
        (pairsOfL types convs).filter fun pr => !(pr.2.isSome && cond pr.1) := by
  intro types
  induction types with
  | nil => intro convs; rfl
  | cons ty restT ih =>
    intro convs
    cases convs with
    | nil =>
      have hsnd := pruneGo_snd_nil cond restT
      have IH := ih []
      rw [hsnd] at IH
      calc pairsOfL (pruneGo cond (ty :: restT) []).1 (pruneGo cond (ty :: restT) []).2
          = pairsOfL (ty :: (pruneGo cond restT []).1) [] := by
            rw [show pruneGo cond (ty :: restT) [] =
              (ty :: (pruneGo cond restT []).1, (pruneGo cond restT []).2) from rfl, hsnd]
        _ = (ty, none) :: pairsOfL (pruneGo cond restT []).1 [] := rfl
        _ = (ty, none) :: (pairsOfL restT []).filter fun pr => !(pr.2.isSome && cond pr.1) := by
            rw [IH]
        _ = ((ty, (none : Option Conv)) :: pairsOfL restT []).filter fun pr =>
              !(pr.2.isSome && cond pr.1) := by
            rw [List.filter_cons_of_pos (by simp)]
        _ = (pairsOfL (ty :: restT) []).filter fun pr => !(pr.2.isSome && cond pr.1) := rfl
    | cons c cs =>
      by_cases h : c.isSome = true ∧ cond ty = true
      · have hred : pruneGo cond (ty :: restT) (c :: cs) = pruneGo cond restT cs := by
          show (if c.isSome ∧ cond ty then pruneGo cond restT cs else _) = _
          rw [if_pos (by simpa using h)]
        rw [hred, ih cs]
        rw [show pairsOfL (ty :: restT) (c :: cs) = (ty, c) :: pairsOfL restT cs from rfl]
        rw [List.filter_cons_of_neg (by simp [h.1, h.2])]
      · have hred : pruneGo cond (ty :: restT) (c :: cs) =
            (ty :: (pruneGo cond restT cs).1, c :: (pruneGo cond restT cs).2) := by
          show (if c.isSome ∧ cond ty then pruneGo cond restT cs else _) = _
          rw [if_neg (by simpa using h)]
        rw [hred]
        rw [show pairsOfL (ty :: (pruneGo cond restT cs).1) (c :: (pruneGo cond restT cs).2) =
          (ty, c) :: pairsOfL (pruneGo cond restT cs).1 (pruneGo cond restT cs).2 from rfl]
        rw [ih cs]
        rw [show pairsOfL (ty :: restT) (c :: cs) = (ty, c) :: pairsOfL restT cs from rfl]
        rw [List.filter_cons_of_pos (by
          cases hcs : c.isSome <;> cases hct : cond ty <;> simp_all)]

/-- C3 counterexample.  In the sorted set for
`{'string, ...number': f, 'string, number': g}` with the conversion
`boolean → number`, the variadic signature `string, ...number|boolean`
sits at position 1; no *other* signature has at parameter index 1 a
non-variadic parameter accepting `boolean` directly (the expanded
`string, boolean` sibling carries the conversion at `boolean`'s
position), so by the claim the entry must survive — yet the filter
removes it, because the source checks `!p.conversions[index]` at the
parameter index (1), not at `boolean`'s own position (0). -/
theorem claim_C3_cex :
    sortedVar.get? 1 = some sigVarA ∧
    specDropCond sortedVar 1 1 (S "boolean") = false ∧
    (pruneAll sortedVar).get? 1 = some sigVarAPruned := by
  refine ⟨by rfl, by rfl, by rfl⟩

/-- C3 amended.  An entry (type `t`, attached conversion) of the trailing
parameter of the variadic signature at position `i` is removed exactly
when its conversion slot is defined and some other signature in the
current (partially pruned) list has, at the same parameter index, a
parameter — variadic or not — whose types contain `t` and whose
`conversions` array is undefined *at the parameter index* (`pruneCond`),
not at `t`'s own position as the claim states. -/
theorem claim_C3_amended (sigs : List Signature) (i : Nat) (sig : Signature)
    (lastP : Param) (h1 : sigs.get? i = some sig) (h2 : sig.varArgs = true)
    (h3 : sig.params.getLast? = some lastP) :
    pruneSignatureAt sigs i =
      sigs.set i ⟨sig.params.dropLast ++
        [⟨(pruneGo (pruneCond sigs i (sig.params.length - 1))
             lastP.types lastP.conversions).1,
          (pruneGo (pruneCond sigs i (sig.params.length - 1))
             lastP.types lastP.conversions).2,
          lastP.varArgs⟩], sig.fn⟩ ∧
    pairsOfL
        (pruneGo (pruneCond sigs i (sig.params.length - 1))
          lastP.types lastP.conversions).1
        (pruneGo (pruneCond sigs i (sig.params.length - 1))
          lastP.types lastP.conversions).2 =
      (pairsOfL lastP.types lastP.conversions).filter fun pr =>
        !(pr.2.isSome && pruneCond sigs i (sig.params.length - 1) pr.1) := by
  constructor
  · unfold pruneSignatureAt
    rw [h1]
    simp only [h2, if_true]
    rw [h3]
  · exact pruneGo_pairs _ lastP.types lastP.conversions

/-- Witness for `claim_C3_amended` at the concrete sorted set of the
counterexample. -/
theorem claim_C3_amended_witness :
    pruneSignatureAt sortedVar 1 =
      sortedVar.set 1 ⟨sigVarA.params.dropLast ++
        [⟨(pruneGo (pruneCond sortedVar 1 (sigVarA.params.length - 1))
             [S "number", S "boolean"] [none, some convBN]).1,
          (pruneGo (pruneCond sortedVar 1 (sigVarA.params.length - 1))
             [S "number", S "boolean"] [none, some convBN]).2,
          true⟩], sigVarA.fn⟩ ∧
    pairsOfL
        (pruneGo (pruneCond sortedVar 1 (sigVarA.params.length - 1))
          [S "number", S "boolean"] [none, some convBN]).1
        (pruneGo (pruneCond sortedVar 1 (sigVarA.params.length - 1))
          [S "number", S "boolean"] [none, some convBN]).2 =
      (pairsOfL [S "number", S "boolean"] [none, some convBN]).filter fun pr =>
        !(pr.2.isSome && pruneCond sortedVar 1 (sigVarA.params.length - 1) pr.1) :=
  claim_C3_amended sortedVar 1 sigVarA
    ⟨[S "number", S "boolean"], [none, some convBN], true⟩
    (by decide) (by decide) (by decide)

theorem jsSplitOn_no_sep (sep : Char) :
    ∀ s : Str, (∀ c ∈ s, c ≠ sep) → jsSplitOn sep s = [s]
  | [], _ => rfl
  | c :: rest, h => by
    rw [show jsSplitOn sep (c :: rest) =
      if c = sep then [] :: jsSplitOn sep rest
      else splitCons c (jsSplitOn sep rest) from rfl]
    rw [if_neg (h c (List.mem_cons_self c rest))]
    rw [jsSplitOn_no_sep sep rest fun c' h' => h c' (List.mem_cons_of_mem c h')]
    rfl

theorem paramOfString_plain (t : Str) (h : PlainName t) :
    paramOfString t = ⟨[t], [], false⟩ := by
  obtain ⟨h1, h2, h3, h4⟩ := h
  have hnb : ∀ c ∈ t, c ≠ '|' := by
    intro c hc he
    exact absurd (by simpa using (he ▸ hc : ('|' : Char) ∈ t)) h3
  unfold paramOfString
  rw [h2, if_neg h4, if_neg h1, jsSplitOn_no_sep '|' t hnb]
  simp [h2]

theorem foldl_preserve {α β : Type _} (f : α → β → α) (g : α → Bool)
    (h : ∀ a b, g (f a b) = g a) : ∀ (l : List β) (a : α), g (l.foldl f a) = g a
  | [], _ => rfl
  | b :: l, a => by rw [List.foldl_cons, foldl_preserve f g h l (f a b), h]

theorem extendVarParam_varArgs (convs : List Conv) (p : Param) :
    (extendVarParam convs p).varArgs = p.varArgs := by
  unfold extendVarParam Param.clone
  exact foldl_preserve _ Param.varArgs (fun a c => by split <;> rfl) convs p

theorem branchesOf_nonvar_single (convs : List Conv) (p : Param)
    (hplain : ∀ t ∈ p.types, PlainName t) (hconvs : ∀ c ∈ convs, PlainName c.src) :
    ∀ b ∈ branchesOf convs p, b.varArgs = false → b.types.length = 1 := by
  intro b hb hbv
  unfold branchesOf at hb
  by_cases hv : p.varArgs = true
  · rw [if_pos hv] at hb
    rcases List.mem_singleton.mp hb with rfl
    rw [extendVarParam_varArgs convs p, hv] at hbv
    cases hbv
  · rw [if_neg hv] at hb
    rcases List.mem_append.mp hb with hmem | hmem
    · obtain ⟨t, ht, rfl⟩ := List.mem_map.mp hmem
      rw [paramOfString_plain t (hplain t ht)]
      rfl
    · obtain ⟨c, hc, rfl⟩ := List.mem_map.mp hmem
      have hcp := hconvs c (List.mem_filter.mp hc).1
      unfold convParam
      rw [paramOfString_plain c.src hcp]
      rfl

theorem expandGo_product (convs : List Conv) (fn : Nat) :
    ∀ (ps : List Param) (path : List Param),
      expandGo convs fn path ps =
        (branchProd (ps.map (branchesOf convs))).map fun tail => ⟨path ++ tail, fn⟩ := by
  intro ps
  induction ps with
  | nil => intro path; simp [expandGo, branchProd]
  | cons p rest ih =>
    intro path
    show ((branchesOf convs p).map fun b => expandGo convs fn (path ++ [b]) rest).flatten = _
    rw [show branchProd ((p :: rest).map (branchesOf convs)) =
      ((branchesOf convs p).map fun b =>
        (branchProd (rest.map (branchesOf convs))).map (b :: ·)).flatten from rfl]
    rw [List.map_flatten, List.map_map]
    refine congrArg List.flatten (List.map_congr_left fun b hb => ?_)
    rw [ih (path ++ [b])]
    simp only [Function.comp_apply, List.map_map]
    refine List.map_congr_left fun tail htail => ?_
    simp

theorem branchProd_mem (x : Param) :
    ∀ (bss : List (List Param)) (l : List Param),
      l ∈ branchProd bss → x ∈ l → ∃ bs ∈ bss, x ∈ bs := by
  intro bss
  induction bss with
  | nil =>
    intro l hl hx
    simp [branchProd] at hl
    subst hl
    simp at hx
  | cons bs rest ih =>
    intro l hl hx
    simp only [branchProd, List.mem_flatten, List.mem_map] at hl
    obtain ⟨sub, ⟨b, hb, rfl⟩, hsub⟩ := hl
    obtain ⟨l', hl', rfl⟩ := List.mem_map.mp hsub
    rcases List.mem_cons.mp hx with rfl | hx'
    · exact ⟨bs, List.mem_cons_self bs rest, hb⟩
    · obtain ⟨bs', hbs', hxbs'⟩ := ih l' hl' hx'
      exact ⟨bs', List.mem_cons_of_mem bs hbs', hxbs'⟩

/-- C6.  `Signature.prototype.expand` explores, parameter by parameter,
exactly the branch lists `branchesOf`: one branch per literal type of a
non-variadic parameter followed by one fresh single-type
conversion-carrying branch per applicable conversion, and the single
extended clone for a variadic parameter; every produced signature keeps
the implementation `s.fn`, and (for plain type names) every non-variadic
parameter of a produced signature accepts exactly one type. -/
theorem claim_C6_expand (convs : List Conv) (s : Signature) (h : PlainSig convs s) :
    Signature.expandM convs s =
      (branchProd (s.params.map (branchesOf convs))).map (fun tail => ⟨tail, s.fn⟩) ∧
    (∀ s' ∈ Signature.expandM convs s, s'.fn = s.fn) ∧
    (∀ s' ∈ Signature.expandM convs s, ∀ p' ∈ s'.params,
      p'.varArgs = false → p'.types.length = 1) := by
  obtain ⟨hp, hc⟩ := h
  have hprod : Signature.expandM convs s =
      (branchProd (s.params.map (branchesOf convs))).map (fun tail => ⟨tail, s.fn⟩) := by
    unfold Signature.expandM
    rw [expandGo_product convs s.fn s.params []]
    refine List.map_congr_left fun tail htail => ?_
    simp
  refine ⟨hprod, ?_, ?_⟩
  · intro s' hs'
    rw [hprod] at hs'
    obtain ⟨tail, _, rfl⟩ := List.mem_map.mp hs'
    rfl
  · intro s' hs' p' hp' hv
    rw [hprod] at hs'
    obtain ⟨tail, htail, rfl⟩ := List.mem_map.mp hs'
    obtain ⟨bs, hbs, hpbs⟩ := branchProd_mem p' _ tail htail hp'
    obtain ⟨q, hq, rfl⟩ := List.mem_map.mp hbs
    exact branchesOf_nonvar_single convs q (fun t ht => hp q hq t ht) hc p' hpbs hv

/-- Witness for `claim_C6_expand` at `'number|string'` with the
`boolean → number` conversion registered. -/
theorem claim_C6_expand_witness :
    Signature.expandM [convBN] demoUnionSig =
      (branchProd (demoUnionSig.params.map (branchesOf [convBN]))).map
        (fun tail => ⟨tail, demoUnionSig.fn⟩) :=
  (claim_C6_expand [convBN] demoUnionSig (by decide)).1

theorem trimmed_ends (t : Str) (h : jsTrim t = t) :
    t.dropWhile isWs = t ∧ t.reverse.dropWhile isWs = t.reverse := by
  unfold jsTrim at h
  have hw : (t.dropWhile isWs).reverse.dropWhile isWs = t.reverse := by
    have := congrArg List.reverse h
    simpa using this
  have hlen1 : ((t.dropWhile isWs).reverse.dropWhile isWs).length ≤
      (t.dropWhile isWs).length := by
    simpa using (List.dropWhile_suffix (l := (t.dropWhile isWs).reverse) isWs).length_le
  have hlen2 : (t.dropWhile isWs).length ≤ t.length :=
    (List.dropWhile_suffix isWs).length_le
  have hlen3 : ((t.dropWhile isWs).reverse.dropWhile isWs).length = t.length := by
    rw [hw]; simp
  have hu : t.dropWhile isWs = t :=
    (List.dropWhile_suffix isWs).eq_of_length (by omega)
  refine ⟨hu, ?_⟩
  rw [hu] at hw
  exact hw

theorem jsTrim_pad (t : Str) (h : jsTrim t = t) :
    jsTrim (' ' :: (t ++ [' '])) = t := by
  obtain ⟨h1, h2⟩ := trimmed_ends t h
  unfold jsTrim
  rw [show List.dropWhile isWs (' ' :: (t ++ [' '])) =
    List.dropWhile isWs (t ++ [' ']) from by simp [List.dropWhile_cons, isWs]]
  cases t with
  | nil => decide
  | cons c t' =>
    have hc : isWs c = false := by
      rw [List.dropWhile_cons] at h1
      by_cases hcw : isWs c = true
      · rw [if_pos hcw] at h1
        have hlc := congrArg List.length h1
        have hle : (t'.dropWhile isWs).length ≤ t'.length :=
          (List.dropWhile_suffix isWs).length_le
        simp at hlc
        omega
      · simpa using hcw
    rw [show List.dropWhile isWs ((c :: t') ++ [' ']) = (c :: t') ++ [' '] from by
      rw [List.cons_append, List.dropWhile_cons, if_neg (by simp [hc])]]
    rw [show ((c :: t') ++ [' ']).reverse = ' ' :: (c :: t').reverse from by simp]
    rw [List.dropWhile_cons]
    rw [if_pos (by simp [isWs])]
    rw [h2]
    simp

theorem jsSplitOn_append_sep (sep : Char) :
    ∀ (p t : Str), (∀ c ∈ p, c ≠ sep) →
      jsSplitOn sep (p ++ sep :: t) = p :: jsSplitOn sep t
  | [], t, _ => by simp [jsSplitOn]
  | c :: p', t, h => by
    rw [List.cons_append]
    rw [show jsSplitOn sep (c :: (p' ++ sep :: t)) =
      if c = sep then [] :: jsSplitOn sep (p' ++ sep :: t)
      else splitCons c (jsSplitOn sep (p' ++ sep :: t)) from rfl]
    rw [if_neg (h c (List.mem_cons_self c p'))]
    rw [jsSplitOn_append_sep sep p' t (fun c' h' => h c' (List.mem_cons_of_mem c h'))]
    rfl

theorem jsSplitOn_jsJoin (sep : Char) :
    ∀ parts : List Str, parts ≠ [] → (∀ p ∈ parts, ∀ c ∈ p, c ≠ sep) →
      jsSplitOn sep (jsJoin [sep] parts) = parts
  | [], hne, _ => absurd rfl hne
  | [x], _, h => jsSplitOn_no_sep sep x (h x (List.mem_singleton_self x))
  | x :: y :: rest, _, h => by
    rw [show jsJoin [sep] (x :: y :: rest) = x ++ sep :: jsJoin [sep] (y :: rest) from by
      show x ++ [sep] ++ jsJoin [sep] (y :: rest) = _
      simp]
    rw [jsSplitOn_append_sep sep x _ (h x (List.mem_cons_self x (y :: rest)))]
    rw [jsSplitOn_jsJoin sep (y :: rest) (by simp)
      (fun p hp => h p (List.mem_cons_of_mem x hp))]

theorem spacedForm_join :
    ∀ ts : List Str, ts ≠ [] →
      spacedForm ts = jsJoin [','] (ts.map fun t => ' ' :: (t ++ [' ']))
  | [], hne => absurd rfl hne
  | [x], _ => by
    show S " " ++ x ++ S " " = ' ' :: (x ++ [' '])
    rw [show S " " = [' '] from rfl]
    simp
  | x :: y :: rest, _ => by
    have ih := spacedForm_join (y :: rest) (by simp)
    unfold spacedForm at ih ⊢
    rw [show jsJoin (S " , ") (x :: y :: rest) =
      x ++ S " , " ++ jsJoin (S " , ") (y :: rest) from rfl]
    rw [show (x :: y :: rest).map (fun t => ' ' :: (t ++ [' '])) =
      (' ' :: (x ++ [' '])) :: (y :: rest).map (fun t => ' ' :: (t ++ [' '])) from rfl]
    rw [show jsJoin [','] ((' ' :: (x ++ [' '])) ::
        (y :: rest).map (fun t => ' ' :: (t ++ [' ']))) =
      (' ' :: (x ++ [' '])) ++ [','] ++
        jsJoin [','] ((y :: rest).map fun t => ' ' :: (t ++ [' '])) from by
      cases rest <;> rfl]
    rw [← ih]
    rw [show S " , " = [' '] ++ [','] ++ [' '] from rfl,
       show S " " = [' '] from rfl]
    simp

/-- C10.  `find` normalizes a string signature by splitting on commas and
trimming each piece before the exact lookup: for clean type names the
space-padded form `' t0 , t1 , … '` resolves exactly like `'t0,t1,…'`,
and an array of type names resolves like the bare comma join. -/
theorem claim_C10_find (fnName : Str) (sigMap : List (Str × Nat)) (ts : List Str)
    (hne : ts ≠ []) (hclean : ∀ t ∈ ts, jsTrim t = t ∧ ∀ c ∈ t, c ≠ ',') :
    findM fnName sigMap (FindInput.ofStr (spacedForm ts)) =
      findM fnName sigMap (FindInput.ofStr (plainForm ts)) ∧
    findM fnName sigMap (FindInput.ofArr ts) =
      findM fnName sigMap (FindInput.ofStr (plainForm ts)) := by
  have hsp : (jsSplitOn ',' (spacedForm ts)).map jsTrim = ts := by
    rw [spacedForm_join ts hne]
    rw [jsSplitOn_jsJoin ',' (ts.map fun t => ' ' :: (t ++ [' ']))
      (by simpa using hne)
      (by
        intro p hp c hc
        obtain ⟨t, ht, rfl⟩ := List.mem_map.mp hp
        rcases List.mem_cons.mp hc with rfl | hc'
        · decide
        · rcases List.mem_append.mp hc' with hct | hcs
          · exact (hclean t ht).2 c hct
          · rcases List.mem_singleton.mp hcs with rfl
            decide)]
    rw [List.map_map]
    exact (List.map_congr_left
      (fun t ht => jsTrim_pad t (hclean t ht).1)).trans (List.map_id ts)
  have hpl : (jsSplitOn ',' (plainForm ts)).map jsTrim = ts := by
    unfold plainForm
    rw [show S "," = [','] from rfl]
    rw [jsSplitOn_jsJoin ',' ts hne (fun p hp c hc => (hclean p hp).2 c hc)]
    exact (List.map_congr_left
      (fun t ht => (hclean t ht).1)).trans (List.map_id ts)
  constructor
  · show findArr fnName sigMap ((jsSplitOn ',' (spacedForm ts)).map jsTrim) =
      findArr fnName sigMap ((jsSplitOn ',' (plainForm ts)).map jsTrim)
    rw [hsp, hpl]
  · show findArr fnName sigMap ts =
      findArr fnName sigMap ((jsSplitOn ',' (plainForm ts)).map jsTrim)
    rw [hpl]

/-- Witness for `claim_C10_find`: looking up `' number , string '`, the
bare `'number,string'` and the array form against a one-entry map. -/
theorem claim_C10_find_witness :
    findM (S "f") [(S "number,string", 5)]
        (FindInput.ofStr (spacedForm [S "number", S "string"])) =
      findM (S "f") [(S "number,string", 5)]
        (FindInput.ofStr (plainForm [S "number", S "string"])) ∧
    findM (S "f") [(S "number,string", 5)]
        (FindInput.ofArr [S "number", S "string"]) =
      findM (S "f") [(S "number,string", 5)]
        (FindInput.ofStr (plainForm [S "number", S "string"])) :=
  claim_C10_find (S "f") [(S "number,string", 5)] [S "number", S "string"]
    (by decide) (by decide)

/-- C2.  The claim is what `src/node.js`'s own doc comment promises
(`@param {Param[]} path`, `@param {Signature} [signature]`, …, four
parameters), and `parseTree` calls `new Node(path, nodeSignature, childs,
fallThrough)` accordingly — but the constructor is declared with *five*
parameters, `Node(types, path, signature, childs, fallThrough)`.  The
traversed parameter list therefore lands in `types`, and `path` receives
the terminal signature: compiling `{'number': f}` crashes constructing
the root node (`path.length` with `path === undefined`), and for an
arity-0 signature (`{'': f}`) the root is built with its `path` field set
to that `Signature` object — not the empty parameter list the claim
requires — `param` `null`, and the child array in the `signature`
field. -/
theorem claim_C2_nodePath :
    typedPipeline defaultReg [] [] 3 [(S "number", 0)] =
      Except.error (S "TypeError: Cannot read property 'length' of undefined") ∧
    typedPipeline defaultReg [] [] 2 [(S "", 1)] =
      Except.ok (NodeM.mk [] (NodePathField.ofSignature ⟨[], 1⟩) none []
        NodeChildsField.emptyArray false) := by
  constructor
  · rfl
  · rfl
